import Mathlib

/-!
# Verification of the `lf-watermark` library

Shallow embedding of `src/lf-watermark/src/lib.rs` and proofs about it.

Modelling conventions:
* Rust `f32`/`f64` arithmetic is modelled by exact arithmetic: the watermark
  encoder and the colour-space conversions are modelled over `ℚ` (all constants
  in the source are decimal literals, which are taken at their exact decimal
  value), and the transform pipeline is modelled over `ℝ` (its cosine and
  square-root values are irrational).  All concrete inputs used in theorems
  below were checked to be far from rounding ties, so the exact-arithmetic
  results coincide with the IEEE-754 results of the source.
* Rust's `f64::round`/`f32::round` (round half away from zero) is
  `roundHalfAway`; Rust's float-to-`u8` `as` cast (a saturating cast since
  Rust 1.45) is `satU8`.
* `rustdct`'s `process_dct2`/`process_dct3` compute the unnormalized DCT
  types II and III; they are modelled by `dct2`/`dct3` below, following the
  formulas documented by that crate.
* Rust `Result<T, Box<dyn Error>>` is modelled by `Except String`; the string
  errors produced in the source are reproduced verbatim.
* The build-time strength constant `option_env!("WATERMARK_STRENGTH")`
  defaults to the string "0.01", whose parse as a float always succeeds; it is
  modelled by the constant `strength = 1/100`.
-/

/-! ## Numeric primitives (Rust semantics) -/

/-- Rust `f64::round` / `f32::round`: round half away from zero.
`(-0.5).round() = -1`, `(0.5).round() = 1`. -/
def roundHalfAway {K : Type} [LinearOrderedField K] [FloorRing K] (q : K) : ℤ :=
  if q < 0 then -⌊-q + 1/2⌋ else ⌊q + 1/2⌋

/-- Rust float-to-`u8` `as` cast: saturating (values below 0 become 0,
values above 255 become 255). -/
def satU8 (z : ℤ) : ℕ :=
  if z < 0 then 0 else if 255 < z then 255 else z.toNat

/-! ## Pixels and rasters -/

/-- An 8-bit RGB pixel (`image::Rgb<u8>`); each component is in 0..=255. -/
structure Rgb where
  r : ℕ
  g : ℕ
  b : ℕ
deriving DecidableEq, Repr

def defaultRgb : Rgb := ⟨0, 0, 0⟩

/-- An RGB raster (`image::RgbImage`): `width`, `height` and the row-major
pixel buffer (flat index of pixel `(x, y)` is `y * width + x`). -/
structure Raster where
  width : ℕ
  height : ℕ
  pixels : List Rgb
deriving DecidableEq, Repr

/-! ## Colour-space conversions (`rgb_to_ycbcr`, `ycbcr_to_rgb`) -/

/-- `fn rgb_to_ycbcr(pixel: &Rgb<u8>) -> (u8, u8, u8)` from the source:
`f64` arithmetic on the channels, `.round()`, then `as u8`. -/
def rgb_to_ycbcr (p : Rgb) : ℕ × ℕ × ℕ :=
  let r : ℚ := p.r
  let g : ℚ := p.g
  let b : ℚ := p.b
  let y := satU8 (roundHalfAway (0.299 * r + 0.587 * g + 0.114 * b))
  let cb := satU8 (roundHalfAway (-0.169 * r - 0.331 * g + 0.5 * b + 128.0))
  let cr := satU8 (roundHalfAway (0.5 * r - 0.419 * g - 0.081 * b + 128.0))
  (y, cb, cr)

/-- `fn ycbcr_to_rgb(y: f32, cb: f32, cr: f32) -> Rgb<u8>` from the source:
`f32` arithmetic, `.round()`, then `as u8`.  Polymorphic over the field so it
can be instantiated at `ℚ` (decidable evaluation) and at `ℝ` (where it is
applied to transform outputs inside `embed_watermark_color`). -/
def ycbcr_to_rgb {K : Type} [LinearOrderedField K] [FloorRing K] (y cb cr : K) : Rgb :=
  let r := satU8 (roundHalfAway (y + 1.402 * (cr - 128.0)))
  let g := satU8 (roundHalfAway (y - 0.34414 * (cb - 128.0) - 0.71414 * (cr - 128.0)))
  let b := satU8 (roundHalfAway (y + 1.772 * (cb - 128.0)))
  ⟨r, g, b⟩

/-! ## Watermark encoder (`get_watermark_from_str`) -/

/-- The fixed alphabet `char_map` from the source, in order. -/
def char_map : List Char :=
  "ABCDEFGHIJKLMNOPQRSTUVWXYZabcdefghijklmnopqrstuvwxyz0123456789!@#$%^&*(),.<>/?; ".toList

/-- The strength constant: `option_env!("WATERMARK_STRENGTH").unwrap_or("0.01")`
parsed as a float; the default build has the constant 0.01. -/
def strength : ℚ := 1 / 100

/-- The error message `format!("Invalid character; {}", c)` from the source. -/
def invalidCharMsg (c : Char) : String := "Invalid character; ".push c

/-- Rust `str::len()`: the UTF-8 byte length of the string. -/
def utf8Len (t : List Char) : ℕ := (t.map Char.utf8Size).sum

/-- The loop `for i in 0..words.len()` of `get_watermark_from_str`:
`i` is the current index, the second argument the number of remaining
iterations, `acc` the accumulator `ret`.  Each iteration looks up
`words.chars().nth(i)` (`t.get? i`) and then `char_map.find(c)`
(`char_map.findIdx?`; `char_map` is pure ASCII, so Rust's byte index of the
first occurrence coincides with the character index). -/
def gwAux (t : List Char) : ℕ → ℕ → ℚ → Except String ℚ
  | _, 0, acc => .ok acc
  | i, rem + 1, acc =>
    match t.get? i with
    | none => .error "invalid index"
    | some c =>
      match char_map.findIdx? (fun x => x == c) with
      | none => .error (invalidCharMsg c)
      | some idx => gwAux t (i + 1) rem (acc + (idx : ℚ))

/-- `pub fn get_watermark_from_str(words: &str) -> Result<f32>`:
runs the loop over the byte length of the input, then multiplies the
accumulated index sum by the strength constant. -/
def get_watermark_from_str (t : List Char) : Except String ℚ :=
  match gwAux t 0 (utf8Len t) 0 with
  | .error e => .error e
  | .ok ret => .ok (ret * strength)

/-- The 0-based first-occurrence index of a character of the alphabet. -/
def wmIndex (c : Char) : ℕ := char_map.findIdx (fun x => x == c)

/-- The watermark-index sum of a text (used to state what the encoder
computes; in exact arithmetic the accumulation order is immaterial). -/
def idxSum (t : List Char) : ℚ := ((t.map wmIndex).sum : ℕ)

/-! ## The transform pipeline (`embed_watermark_color`) -/

/-- The unnormalized DCT type II computed by `rustdct`'s `process_dct2`:
`output[k] = Σ_n input[n] * cos(k * (n + 0.5) * π / len)`. -/
noncomputable def dct2 (x : List ℝ) : List ℝ :=
  (List.range x.length).map fun (k : ℕ) =>
    ∑ n ∈ Finset.range x.length,
      x.getD n 0 * Real.cos ((k : ℝ) * ((n : ℝ) + 1/2) * Real.pi / (x.length : ℝ))

/-- The unnormalized DCT type III computed by `rustdct`'s `process_dct3`:
`output[k] = input[0]/2 + Σ_{n≥1} input[n] * cos(n * (k + 0.5) * π / len)`. -/
noncomputable def dct3 (x : List ℝ) : List ℝ :=
  (List.range x.length).map fun (k : ℕ) =>
    x.getD 0 0 / 2 + ∑ n ∈ Finset.Ico 1 x.length,
      x.getD n 0 * Real.cos ((n : ℝ) * ((k : ℝ) + 1/2) * Real.pi / (x.length : ℝ))

/-- The luminance plane of the input raster before any watermarking: the `y`
component of `rgb_to_ycbcr` of each pixel, as a float, at flat index
`y * width + x`. -/
def luminance_plane (img : Raster) : List ℝ :=
  (List.range (img.width * img.height)).map fun (i : ℕ) =>
    ((rgb_to_ycbcr (img.pixels.getD i defaultRgb)).1 : ℝ)

/-- The buffer `y_channel` after the fill loop of `embed_watermark_color`:
`y_channel[idx] = y as f32 + watermark` — the watermark value is added to the
spatial luminance samples here, before any transform is applied. -/
def dct_input_plane (img : Raster) (w : ℚ) : List ℝ :=
  (List.range (img.width * img.height)).map fun (i : ℕ) =>
    ((rgb_to_ycbcr (img.pixels.getD i defaultRgb)).1 : ℝ) + (w : ℝ)

/-- The buffer `cbcr_channel` after the fill loop: the chrominance pair of
each pixel at flat index `y * width + x`.  It is never written again. -/
def chroma_plane (img : Raster) : List (ℕ × ℕ) :=
  (List.range (img.width * img.height)).map fun (i : ℕ) =>
    (rgb_to_ycbcr (img.pixels.getD i defaultRgb)).2

/-- `let normalization_factor = (2.0 / len as f32).sqrt()`. -/
noncomputable def normalization_factor (img : Raster) : ℝ :=
  Real.sqrt (2 / (img.width * img.height : ℝ))

/-- The luminance buffer after forward DCT-II, scaling, inverse DCT-III and
scaling — the values handed to `ycbcr_to_rgb` during reconstruction. -/
noncomputable def final_y_plane (img : Raster) (w : ℚ) : List ℝ :=
  (dct3 ((dct2 (dct_input_plane img w)).map
      (fun v => v * normalization_factor img))).map
    (fun v => v * normalization_factor img)

/-- `pub fn embed_watermark_color(image: &DynamicImage, watermark: &str)
-> Result<RgbImage>`: derive the watermark value (propagating its error),
fill the chroma and luminance buffers, run forward DCT-II, scale, run inverse
DCT-III, scale, and rebuild an RGB raster of the same dimensions from the
processed luminance and the untouched chroma pairs. -/
noncomputable def embed_watermark_color (img : Raster) (t : List Char) :
    Except String Raster :=
  match get_watermark_from_str t with
  | .error e => .error e
  | .ok w =>
    .ok ⟨img.width, img.height,
      (List.range (img.width * img.height)).map fun (i : ℕ) =>
        ycbcr_to_rgb ((final_y_plane img w).getD i 0)
          ((((chroma_plane img).getD i (0, 0)).1 : ℝ))
          ((((chroma_plane img).getD i (0, 0)).2 : ℝ))⟩

/-! ## Sample rasters used as concrete inputs -/

def raster00 : Raster := ⟨0, 0, []⟩

def raster11 : Raster := ⟨1, 1, [⟨0, 0, 0⟩]⟩

def raster21 : Raster := ⟨2, 1, [⟨0, 0, 0⟩, ⟨255, 255, 255⟩]⟩

/-! ## Basic evaluation lemmas -/

theorem dct2_getD (x : List ℝ) (k : ℕ) (h : k < x.length) :
    (dct2 x).getD k 0 =
      ∑ n ∈ Finset.range x.length,
        x.getD n 0 * Real.cos ((k : ℝ) * ((n : ℝ) + 1/2) * Real.pi / (x.length : ℝ)) := by
  rw [dct2, List.getD_eq_getElem?_getD, List.getElem?_map, List.getElem?_range h]
  rfl

theorem dct_input_plane_getD (img : Raster) (w : ℚ) (k : ℕ)
    (h : k < img.width * img.height) :
    (dct_input_plane img w).getD k 0 =
      ((rgb_to_ycbcr (img.pixels.getD k defaultRgb)).1 : ℝ) + (w : ℝ) := by
  rw [dct_input_plane, List.getD_eq_getElem?_getD, List.getElem?_map,
    List.getElem?_range h]
  rfl

theorem luminance_plane_getD (img : Raster) (k : ℕ)
    (h : k < img.width * img.height) :
    (luminance_plane img).getD k 0 =
      ((rgb_to_ycbcr (img.pixels.getD k defaultRgb)).1 : ℝ) := by
  rw [luminance_plane, List.getD_eq_getElem?_getD, List.getElem?_map,
    List.getElem?_range h]
  rfl

theorem chroma_plane_getD (img : Raster) (k : ℕ)
    (h : k < img.width * img.height) :
    (chroma_plane img).getD k (0, 0) =
      (rgb_to_ycbcr (img.pixels.getD k defaultRgb)).2 := by
  rw [chroma_plane, List.getD_eq_getElem?_getD, List.getElem?_map,
    List.getElem?_range h]
  rfl

/-! ## Round-trip of the colour conversions (C1, C7) -/

/-- The forward-then-inverse composition of §8 of the spec: convert an RGB
triple to YCbCr and feed the resulting components, as floats, back to the
inverse conversion. -/
def rgbRoundTrip (p : Rgb) : Rgb :=
  let t := rgb_to_ycbcr p
  ycbcr_to_rgb (t.1 : ℚ) (t.2.1 : ℚ) (t.2.2 : ℚ)

theorem rgbRoundTrip_eval (p q : Rgb) (y cb cr : ℕ)
    (h1 : rgb_to_ycbcr p = (y, cb, cr))
    (h2 : ycbcr_to_rgb (y : ℚ) (cb : ℚ) (cr : ℚ) = q) :
    rgbRoundTrip p = q := by
  rw [rgbRoundTrip, h1]
  exact h2

/-- Pure red: the `cr` intermediate value is `round(255.5) = 256`, which the
saturating narrowing turns into `255`. -/
theorem rgb_to_ycbcr_pure_red : rgb_to_ycbcr ⟨255, 0, 0⟩ = (76, 85, 255) := by
  norm_num [rgb_to_ycbcr, roundHalfAway, satU8]
  all_goals decide

theorem ycbcr_to_rgb_of_pure_red :
    ycbcr_to_rgb (76 : ℚ) (85 : ℚ) (255 : ℚ) = ⟨254, 0, 0⟩ := by
  norm_num [ycbcr_to_rgb, roundHalfAway, satU8]
  all_goals decide

/-- C1 (counterexample): the claimed round-trip identity fails at the
concrete triple (255, 0, 0), which comes back as (254, 0, 0). -/
theorem roundtrip_fails_at_pure_red : rgbRoundTrip ⟨255, 0, 0⟩ ≠ ⟨255, 0, 0⟩ := by
  rw [rgbRoundTrip_eval _ _ 76 85 255 rgb_to_ycbcr_pure_red ycbcr_to_rgb_of_pure_red]
  decide

/-- C1 (amended): the forward-then-inverse round-trip reproduces the original
triple on the six triples exercised by the repository's own test
`test_rgb_to_ycbcr`; it does not hold for every 8-bit triple. -/
theorem roundtrip_on_test_triples :
    rgbRoundTrip ⟨255, 255, 255⟩ = ⟨255, 255, 255⟩ ∧
    rgbRoundTrip ⟨254, 0, 0⟩ = ⟨254, 0, 0⟩ ∧
    rgbRoundTrip ⟨0, 255, 1⟩ = ⟨0, 255, 1⟩ ∧
    rgbRoundTrip ⟨0, 0, 254⟩ = ⟨0, 0, 254⟩ ∧
    rgbRoundTrip ⟨0, 0, 0⟩ = ⟨0, 0, 0⟩ ∧
    rgbRoundTrip ⟨128, 128, 128⟩ = ⟨128, 128, 128⟩ := by
  refine ⟨?_, ?_, ?_, ?_, ?_, ?_⟩
  · refine rgbRoundTrip_eval _ _ 255 128 128 ?_ ?_ <;>
      · norm_num [rgb_to_ycbcr, ycbcr_to_rgb, roundHalfAway, satU8]
        all_goals decide
  · refine rgbRoundTrip_eval _ _ 76 85 255 ?_ ?_ <;>
      · norm_num [rgb_to_ycbcr, ycbcr_to_rgb, roundHalfAway, satU8]
        all_goals decide
  · refine rgbRoundTrip_eval _ _ 150 44 21 ?_ ?_ <;>
      · norm_num [rgb_to_ycbcr, ycbcr_to_rgb, roundHalfAway, satU8]
        all_goals decide
  · refine rgbRoundTrip_eval _ _ 29 255 107 ?_ ?_ <;>
      · norm_num [rgb_to_ycbcr, ycbcr_to_rgb, roundHalfAway, satU8]
        all_goals decide
  · refine rgbRoundTrip_eval _ _ 0 128 128 ?_ ?_ <;>
      · norm_num [rgb_to_ycbcr, ycbcr_to_rgb, roundHalfAway, satU8]
        all_goals decide
  · refine rgbRoundTrip_eval _ _ 128 128 128 ?_ ?_ <;>
      · norm_num [rgb_to_ycbcr, ycbcr_to_rgb, roundHalfAway, satU8]
        all_goals decide

/-- Modelled from the spec (§4.2, §9): a narrowing that "truncates/wraps if
out of range", i.e. reduces the rounded value modulo 256. -/
def wrapU8 (z : ℤ) : ℕ := (z % 256).toNat

/-- Modelled from the spec: `rgb_to_ycbcr` with the wrapping narrowing the
spec describes, for comparison with the source's saturating narrowing. -/
def rgb_to_ycbcr_wrapping (p : Rgb) : ℕ × ℕ × ℕ :=
  let r : ℚ := p.r
  let g : ℚ := p.g
  let b : ℚ := p.b
  let y := wrapU8 (roundHalfAway (0.299 * r + 0.587 * g + 0.114 * b))
  let cb := wrapU8 (roundHalfAway (-0.169 * r - 0.331 * g + 0.5 * b + 128.0))
  let cr := wrapU8 (roundHalfAway (0.5 * r - 0.419 * g - 0.081 * b + 128.0))
  (y, cb, cr)

/-- C7 (counterexample): at (255, 0, 0) the rounded `cr` value is 256; the
source narrows it to 255 (saturation), not to 256 mod 256 = 0 (wrapping), so
the code does not wrap out-of-range values. -/
theorem narrowing_does_not_wrap :
    rgb_to_ycbcr ⟨255, 0, 0⟩ ≠ rgb_to_ycbcr_wrapping ⟨255, 0, 0⟩ := by
  have h : rgb_to_ycbcr_wrapping ⟨255, 0, 0⟩ = (76, 85, 0) := by
    norm_num [rgb_to_ycbcr_wrapping, roundHalfAway, wrapU8]
    all_goals decide
  rw [rgb_to_ycbcr_pure_red, h]
  decide

/-- C7 (amended): the conversions have no explicit clamp, but the
narrowing (Rust's saturating float-to-`u8` cast) clamps to the nearest bound:
`satU8` coincides with clamping to [0, 255], and at (255, 0, 0) the rounded
`cr` intermediate is 256 — mathematically outside [0, 255] — and is narrowed
to 255. -/
theorem narrowing_saturates :
    (∀ z : ℤ, satU8 z = (min 255 (max 0 z)).toNat) ∧
    roundHalfAway ((0.5 : ℚ) * 255 - 0.419 * 0 - 0.081 * 0 + 128.0) = 256 ∧
    rgb_to_ycbcr ⟨255, 0, 0⟩ = (76, 85, 255) := by
  refine ⟨?_, ?_, rgb_to_ycbcr_pure_red⟩
  · intro z
    simp only [satU8]
    split_ifs <;> omega
  · norm_num [roundHalfAway]

/-! ## Properties of the alphabet and the encoder loop -/

theorem char_map_ascii : ∀ c ∈ char_map, c.utf8Size = 1 := by decide

theorem utf8Len_eq_length {t : List Char} (hv : ∀ c ∈ t, c ∈ char_map) :
    utf8Len t = t.length := by
  induction t with
  | nil => rfl
  | cons a l ih =>
    have ha : a.utf8Size = 1 := char_map_ascii a (hv a (.head _))
    have hl := ih (fun c hc => hv c (.tail _ hc))
    have h2 : utf8Len (a :: l) = a.utf8Size + utf8Len l := by
      simp [utf8Len]
    rw [h2, List.length_cons]
    omega

theorem length_le_utf8Len (t : List Char) : t.length ≤ utf8Len t := by
  induction t with
  | nil => simp [utf8Len]
  | cons a l ih =>
    have h1 := Char.utf8Size_pos a
    have h2 : utf8Len (a :: l) = a.utf8Size + utf8Len l := by
      simp [utf8Len]
    rw [h2, List.length_cons]
    omega

theorem findIdx?_mem {α : Type} {p : α → Bool} {l : List α}
    (h : ∃ x ∈ l, p x = true) : l.findIdx? p = some (l.findIdx p) := by
  cases hf : l.findIdx? p with
  | none =>
    rw [List.findIdx?_eq_none_iff] at hf
    obtain ⟨x, hx, hp⟩ := h
    rw [hf x hx] at hp
    exact absurd hp (by simp)
  | some i =>
    rw [List.findIdx_eq_findIdx?, hf]

theorem gwAux_ok (t : List Char) (hv : ∀ c ∈ t, c ∈ char_map) :
    ∀ (rem i : ℕ) (acc : ℚ), i + rem = t.length →
      gwAux t i rem acc = .ok (acc + ((((t.drop i).map wmIndex).sum : ℕ) : ℚ)) := by
  intro rem
  induction rem with
  | zero =>
    intro i acc h
    have hi : i = t.length := by omega
    subst hi
    simp [gwAux, List.drop_length]
  | succ rem ih =>
    intro i acc h
    have hi : i < t.length := by omega
    have hget : t.get? i = some t[i] := by
      rw [List.get?_eq_getElem?, List.getElem?_eq_getElem hi]
    have hmem : t[i] ∈ char_map := hv _ (List.getElem_mem hi)
    have hfind :
        char_map.findIdx? (fun x => x == t[i]) =
          some (char_map.findIdx (fun x => x == t[i])) :=
      findIdx?_mem ⟨t[i], hmem, by simp⟩
    rw [List.drop_eq_getElem_cons hi]
    simp only [gwAux, hget, hfind, List.map_cons, List.sum_cons]
    rw [ih (i + 1) _ (by omega)]
    congr 1
    push_cast [wmIndex]
    ring

theorem gwAux_error (t : List Char) (j : ℕ) (c : Char)
    (hj : t.get? j = some c)
    (hc : char_map.findIdx? (fun x => x == c) = none)
    (hbefore : ∀ k, k < j → ∃ d, t.get? k = some d ∧ d ∈ char_map) :
    ∀ (rem i : ℕ) (acc : ℚ), i ≤ j → j < i + rem →
      gwAux t i rem acc = .error (invalidCharMsg c) := by
  intro rem
  induction rem with
  | zero => intro i acc h1 h2; omega
  | succ rem ih =>
    intro i acc h1 h2
    rcases Nat.eq_or_lt_of_le h1 with rfl | hlt
    · simp only [gwAux, hj, hc]
    · obtain ⟨d, hd1, hd2⟩ := hbefore i hlt
      have hfind :
          char_map.findIdx? (fun x => x == d) =
            some (char_map.findIdx (fun x => x == d)) :=
        findIdx?_mem ⟨d, hd2, by simp⟩
      simp only [gwAux, hd1, hfind]
      exact ih (i + 1) _ (by omega) (by omega)

/-- On fully valid input the encoder returns the index sum times the
strength constant. -/
theorem get_watermark_of_valid (t : List Char) (hv : ∀ c ∈ t, c ∈ char_map) :
    get_watermark_from_str t = .ok (idxSum t * strength) := by
  rw [get_watermark_from_str, utf8Len_eq_length hv,
    gwAux_ok t hv t.length 0 0 (by omega)]
  simp [idxSum]

/-- If the character at position `j` is invalid and all characters before it
are valid, the encoder fails with the message naming that character. -/
theorem get_watermark_error_at (t : List Char) (j : ℕ) (c : Char)
    (hj : t.get? j = some c) (hc : c ∉ char_map)
    (hbefore : ∀ k, k < j → ∃ d, t.get? k = some d ∧ d ∈ char_map) :
    get_watermark_from_str t = .error (invalidCharMsg c) := by
  have hjlen : j < t.length := by
    by_contra hge
    rw [List.get?_eq_getElem?, List.getElem?_eq_none (by omega)] at hj
    exact absurd hj (by simp)
  have hnone : char_map.findIdx? (fun x => x == c) = none := by
    rw [List.findIdx?_eq_none_iff]
    intro x hx
    show (x == c) = false
    cases hxc : x == c
    · rfl
    · exact absurd hx (by rw [eq_of_beq hxc]; exact hc)
  have hrem : j < 0 + utf8Len t :=
    lt_of_lt_of_le hjlen (by simpa using length_le_utf8Len t)
  rw [get_watermark_from_str,
    gwAux_error t j c hj hnone hbefore (utf8Len t) 0 0 (by omega) hrem]

theorem find?_first {α : Type} (p : α → Bool) :
    ∀ (l : List α) (c : α), l.find? p = some c →
      ∃ j, l.get? j = some c ∧ p c = true ∧
        ∀ k, k < j → ∃ d, l.get? k = some d ∧ p d = false := by
  intro l
  induction l with
  | nil => intro c h; simp at h
  | cons a l ih =>
    intro c h
    cases hpa : p a with
    | true =>
      rw [List.find?_cons_of_pos _ hpa] at h
      obtain rfl : a = c := by injection h
      exact ⟨0, rfl, hpa, fun k hk => absurd hk (Nat.not_lt_zero k)⟩
    | false =>
      rw [List.find?_cons_of_neg _ (by simp [hpa])] at h
      obtain ⟨j, h1, h2, h3⟩ := ih c h
      refine ⟨j + 1, by simpa using h1, h2, fun k hk => ?_⟩
      match k with
      | 0 => exact ⟨a, rfl, hpa⟩
      | k + 1 => simpa using h3 k (by omega)

/-! ## Shared evaluation helpers -/

theorem gw_nil : get_watermark_from_str [] = .ok 0 := by
  rw [get_watermark_of_valid [] (by simp)]
  simp [idxSum]

theorem gw_B : get_watermark_from_str ("B".toList) = .ok (1 / 100) := by
  rw [get_watermark_of_valid _ (by decide)]
  have h : idxSum ("B".toList) = 1 := by
    rw [idxSum, show (("B".toList).map wmIndex).sum = 1 from by decide]
    norm_num
  rw [h, strength]
  norm_num

/-- On valid watermark text, `embed_watermark_color` returns the raster built
from the processed luminance plane and the stored chroma plane. -/
theorem embed_ok_shape (img : Raster) (t : List Char) (w : ℚ)
    (h : get_watermark_from_str t = .ok w) :
    embed_watermark_color img t =
      .ok ⟨img.width, img.height,
        (List.range (img.width * img.height)).map fun (i : ℕ) =>
          ycbcr_to_rgb ((final_y_plane img w).getD i 0)
            ((((chroma_plane img).getD i (0, 0)).1 : ℝ))
            ((((chroma_plane img).getD i (0, 0)).2 : ℝ))⟩ := by
  simp only [embed_watermark_color, h]

theorem rgb_to_ycbcr_black : rgb_to_ycbcr ⟨0, 0, 0⟩ = (0, 128, 128) := by
  norm_num [rgb_to_ycbcr, roundHalfAway, satU8]
  all_goals decide

theorem rgb_to_ycbcr_white : rgb_to_ycbcr ⟨255, 255, 255⟩ = (255, 128, 128) := by
  norm_num [rgb_to_ycbcr, roundHalfAway, satU8]
  all_goals decide

/-- The second output entry of the unnormalized DCT-II of a length-2 signal. -/
theorem dct2_pair_getD (a b : ℝ) :
    (dct2 [a, b]).getD 1 0 = (a - b) * (Real.sqrt 2 / 2) := by
  have h : (dct2 [a, b]).getD 1 0 =
      ∑ n ∈ Finset.range 2, ([a, b].getD n 0) *
        Real.cos (((1 : ℕ) : ℝ) * ((n : ℝ) + 1/2) * Real.pi / ((2 : ℕ) : ℝ)) := rfl
  rw [h, Finset.sum_range_succ, Finset.sum_range_succ, Finset.sum_range_zero]
  simp only [List.getD_cons_zero, List.getD_cons_succ]
  have hA : ((1 : ℕ) : ℝ) * (((0 : ℕ) : ℝ) + 1/2) * Real.pi / ((2 : ℕ) : ℝ) = Real.pi / 4 := by
    push_cast
    ring
  have hB : ((1 : ℕ) : ℝ) * (((1 : ℕ) : ℝ) + 1/2) * Real.pi / ((2 : ℕ) : ℝ) =
      Real.pi - Real.pi / 4 := by
    push_cast
    ring
  rw [hA, hB, Real.cos_pi_sub, Real.cos_pi_div_four]
  ring

/-! ## C2: where the watermark value enters the pipeline -/

/-- C2 (counterexample): with watermark text "B" (value 0.01) and a 2×1
raster with luminances 0 and 255, the buffer after the forward DCT does NOT
equal the forward transform of the unmodified luminance signal plus the
watermark value at index 1: the code adds the watermark before the
transform, which leaves all non-DC coefficients unchanged. -/
theorem uniform_coefficient_addition_cex :
    get_watermark_from_str ("B".toList) = .ok (1 / 100) ∧
    (dct2 (dct_input_plane raster21 (1 / 100))).getD 1 0 ≠
      (dct2 (luminance_plane raster21)).getD 1 0 + ((1 / 100 : ℚ) : ℝ) := by
  refine ⟨gw_B, ?_⟩
  have hin : dct_input_plane raster21 (1 / 100) =
      [(0 : ℝ) + ((1 / 100 : ℚ) : ℝ), (255 : ℝ) + ((1 / 100 : ℚ) : ℝ)] := by
    norm_num [dct_input_plane, raster21, List.range_succ,
      rgb_to_ycbcr_black, rgb_to_ycbcr_white]
  have hlum : luminance_plane raster21 = [(0 : ℝ), (255 : ℝ)] := by
    norm_num [luminance_plane, raster21, List.range_succ,
      rgb_to_ycbcr_black, rgb_to_ycbcr_white]
  rw [hin, hlum, dct2_pair_getD, dct2_pair_getD]
  have hw : ((1 / 100 : ℚ) : ℝ) = 1 / 100 := by
    push_cast
    ring
  rw [hw]
  intro h
  ring_nf at h
  nlinarith [h]

/-- C2 (amended): the watermark value is added uniformly to every sample of
the spatial luminance plane before the forward transform: for every index
`k` of the buffer, the value after the addition step equals the `k`-th
unmodified luminance sample plus the watermark value (the forward DCT is
then applied to this watermarked plane, see `final_y_plane`). -/
theorem watermark_added_to_spatial_samples (img : Raster) (w : ℚ) (k : ℕ)
    (h : k < img.width * img.height) :
    (dct_input_plane img w).getD k 0 =
      (luminance_plane img).getD k 0 + (w : ℝ) := by
  rw [dct_input_plane_getD img w k h, luminance_plane_getD img k h]

/-- Witness for `watermark_added_to_spatial_samples` at a concrete raster,
watermark value and index. -/
theorem watermark_added_to_spatial_samples_witness :
    (dct_input_plane raster21 (1 / 100)).getD 0 0 =
      (luminance_plane raster21).getD 0 0 + ((1 / 100 : ℚ) : ℝ) :=
  watermark_added_to_spatial_samples raster21 (1 / 100) 0 (by decide)

/-! ## C3: the value computed by the watermark encoder -/

/-- C3: on text made only of alphabet characters the encoder returns the sum
of the characters' 0-based first-occurrence alphabet indices times the
strength constant; in particular it returns 0 on the empty string and 5.35
on "Hello, World!". -/
theorem watermark_encoder_spec :
    (∀ t : List Char, (∀ c ∈ t, c ∈ char_map) →
      get_watermark_from_str t = .ok (idxSum t * strength)) ∧
    get_watermark_from_str [] = .ok 0 ∧
    get_watermark_from_str ("Hello, World!".toList) = .ok 5.35 := by
  refine ⟨get_watermark_of_valid, gw_nil, ?_⟩
  rw [get_watermark_of_valid _ (by decide)]
  have h : idxSum ("Hello, World!".toList) = 535 := by
    rw [idxSum, show (("Hello, World!".toList).map wmIndex).sum = 535 from by decide]
    norm_num
  rw [h, strength]
  norm_num

/-- Witness for `watermark_encoder_spec` at the concrete input "AB". -/
theorem watermark_encoder_spec_witness :
    get_watermark_from_str ("AB".toList) = .ok (idxSum ("AB".toList) * strength) :=
  watermark_encoder_spec.1 ("AB".toList) (by decide)

/-! ## C4: the invalid-character failure mode -/

/-- C4: the encoder fails exactly when the text contains a character outside
the alphabet; on failure the error message carries the first offending
character and no value is produced, and `embed_watermark_color` propagates
the same error, producing no output raster. -/
theorem invalid_character_error_spec (t : List Char) (img : Raster) :
    ((∃ c ∈ t, c ∉ char_map) ↔ ∃ e, get_watermark_from_str t = .error e) ∧
    (∀ c : Char, t.find? (fun d => !(char_map.contains d)) = some c →
      c ∉ char_map ∧
      get_watermark_from_str t = .error (invalidCharMsg c) ∧
      embed_watermark_color img t = .error (invalidCharMsg c)) := by
  have key : ∀ c : Char, t.find? (fun d => !(char_map.contains d)) = some c →
      c ∉ char_map ∧
      get_watermark_from_str t = .error (invalidCharMsg c) ∧
      embed_watermark_color img t = .error (invalidCharMsg c) := by
    intro c hfind
    obtain ⟨j, hj, hpc, hbefore⟩ := find?_first _ t c hfind
    have hcnot : c ∉ char_map := by
      intro hmem
      have : char_map.contains c = true := by simpa using hmem
      rw [this] at hpc
      exact absurd hpc (by simp)
    have hbefore' : ∀ k, k < j → ∃ d, t.get? k = some d ∧ d ∈ char_map := by
      intro k hk
      obtain ⟨d, hd1, hd2⟩ := hbefore k hk
      refine ⟨d, hd1, ?_⟩
      have : char_map.contains d = true := by
        revert hd2
        cases char_map.contains d <;> simp
      simpa using this
    have herr := get_watermark_error_at t j c hj hcnot hbefore'
    exact ⟨hcnot, herr, by simp only [embed_watermark_color, herr]⟩
  refine ⟨⟨?_, ?_⟩, key⟩
  · rintro ⟨c0, hc0, hnc0⟩
    cases hf : t.find? (fun d => !(char_map.contains d)) with
    | none =>
      rw [List.find?_eq_none] at hf
      have := hf c0 hc0
      have hcontains : char_map.contains c0 = false := by
        revert hnc0
        cases h : char_map.contains c0
        · intro _; rfl
        · intro hn; exact absurd (by simpa using h) hn
      rw [hcontains] at this
      simp at this
    | some c =>
      exact ⟨invalidCharMsg c, (key c hf).2.1⟩
  · rintro ⟨e, he⟩
    by_contra hnone
    push_neg at hnone
    rw [get_watermark_of_valid t hnone] at he
    exact absurd he (by simp)

/-- Witness for `invalid_character_error_spec`: a tab character is outside
the alphabet, so both the encoder and the embedder fail with the message
naming it. -/
theorem invalid_character_error_spec_witness :
    get_watermark_from_str ['\t'] = .error (invalidCharMsg '\t') ∧
    embed_watermark_color raster11 ['\t'] = .error (invalidCharMsg '\t') := by
  have h := (invalid_character_error_spec ['\t'] raster11).2 '\t' (by decide)
  exact ⟨h.2.1, h.2.2⟩

/-! ## C5: degenerate rasters -/

/-- C5 (counterexample): for a 0×0 raster the transform IS invoked on a
length-0 signal: `embed_watermark_color` unconditionally applies `dct2` to
`dct_input_plane` (see `final_y_plane`), and for the 0×0 raster that signal
has length 0; there is no special case or rejection path, and the call
completes, returning the 0×0 raster. -/
theorem degenerate_raster_transform_invoked :
    (dct_input_plane raster00 0).length = 0 ∧
    embed_watermark_color raster00 [] = .ok ⟨0, 0, []⟩ := by
  constructor
  · simp [dct_input_plane, raster00]
  · rw [embed_ok_shape raster00 [] 0 gw_nil]
    simp [raster00]

/-- C5 (amended): 0×0 and 1×1 rasters are not rejected: the embedding is
defined on them and returns a raster of the same dimensions (in the
exact-arithmetic model the transform of the empty buffer is the empty
buffer); the transform is, however, invoked on the length-0 signal — the
source has no special case for it. -/
theorem degenerate_rasters_defined :
    embed_watermark_color raster00 [] = .ok ⟨0, 0, []⟩ ∧
    ∃ o, embed_watermark_color raster11 [] = .ok o ∧
      o.width = 1 ∧ o.height = 1 ∧ o.pixels.length = 1 := by
  constructor
  · rw [embed_ok_shape raster00 [] 0 gw_nil]
    simp [raster00]
  · refine ⟨_, embed_ok_shape raster11 [] 0 gw_nil, rfl, rfl, ?_⟩
    simp [raster11]

/-! ## C6: the alphabet -/

/-- C6 (counterexample): the fixed alphabet does not have 83 symbols — its
length is 80. -/
theorem alphabet_not_83 : char_map.length ≠ 83 := by decide

/-- C6 (amended): the fixed alphabet is an ordered sequence of exactly 80
distinct printable symbols — uppercase letters, lowercase letters, digits,
a fixed set of punctuation, and space — and (being duplicate-free) each
character's lookup index is its 0-based first occurrence. -/
theorem alphabet_80_distinct_printable :
    char_map.length = 80 ∧ char_map.Nodup ∧
    char_map.all
      (fun c => c.isUpper || c.isLower || c.isDigit ||
        ("!@#$%^&*(),.<>/?; ".toList).contains c) = true := by
  refine ⟨by decide, by decide, by decide⟩

/-! ## C8: chroma passthrough -/

/-- C8: for every pixel (x, y) of the input, the output pixel at flat index
`y * width + x` is reconstructed with exactly the chrominance pair produced
by the forward conversion of the input pixel at the same flat index; the
chroma buffer is written only in the fill loop and never touched by the
transform steps. -/
theorem chroma_passthrough (img : Raster) (t : List Char) (w : ℚ) (x y : ℕ)
    (hw : get_watermark_from_str t = .ok w)
    (hx : x < img.width) (hy : y < img.height) :
    ∃ out, embed_watermark_color img t = .ok out ∧
      out.pixels.get? (y * img.width + x) =
        some (ycbcr_to_rgb ((final_y_plane img w).getD (y * img.width + x) 0)
          (((rgb_to_ycbcr (img.pixels.getD (y * img.width + x) defaultRgb)).2.1 : ℝ))
          (((rgb_to_ycbcr (img.pixels.getD (y * img.width + x) defaultRgb)).2.2 : ℝ))) := by
  have hlt : y * img.width + x < img.width * img.height := by
    have h1 : y * img.width + x < (y + 1) * img.width := by
      rw [Nat.succ_mul]
      omega
    have h2 : (y + 1) * img.width ≤ img.height * img.width :=
      Nat.mul_le_mul_right _ hy
    have h3 : img.height * img.width = img.width * img.height := Nat.mul_comm _ _
    exact lt_of_lt_of_le h1 (le_of_le_of_eq h2 h3)
  refine ⟨_, embed_ok_shape img t w hw, ?_⟩
  show ((List.range (img.width * img.height)).map _).get? (y * img.width + x) = _
  rw [List.get?_eq_getElem?, List.getElem?_map, List.getElem?_range hlt,
    Option.map_some', chroma_plane_getD img _ hlt]

/-- Witness for `chroma_passthrough` at the pixel (1, 0) of a concrete 2×1
raster and the concrete watermark text "B". -/
theorem chroma_passthrough_witness :
    ∃ out, embed_watermark_color raster21 ("B".toList) = .ok out ∧
      out.pixels.get? (0 * raster21.width + 1) =
        some (ycbcr_to_rgb ((final_y_plane raster21 (1 / 100)).getD (0 * raster21.width + 1) 0)
          (((rgb_to_ycbcr (raster21.pixels.getD (0 * raster21.width + 1) defaultRgb)).2.1 : ℝ))
          (((rgb_to_ycbcr (raster21.pixels.getD (0 * raster21.width + 1) defaultRgb)).2.2 : ℝ))) :=
  chroma_passthrough raster21 ("B".toList) (1 / 100) 1 0 gw_B (by decide) (by decide)

/-! ## C9: dimensions of the output raster -/

/-- C9: whenever the watermark text is accepted, embedding succeeds and
returns a new raster whose width and height equal those of the input (and
whose pixel buffer has exactly width × height entries); the input raster is
passed by shared reference and never mutated (the model is a pure
function of it). -/
theorem embed_preserves_dimensions (img : Raster) (t : List Char) (w : ℚ)
    (h : get_watermark_from_str t = .ok w) :
    ∃ out, embed_watermark_color img t = .ok out ∧
      out.width = img.width ∧ out.height = img.height ∧
      out.pixels.length = img.width * img.height :=
  ⟨_, embed_ok_shape img t w h, rfl, rfl, by simp⟩

/-- Witness for `embed_preserves_dimensions` at a concrete raster and text. -/
theorem embed_preserves_dimensions_witness :
    ∃ out, embed_watermark_color raster21 [] = .ok out ∧
      out.width = raster21.width ∧ out.height = raster21.height ∧
      out.pixels.length = raster21.width * raster21.height :=
  embed_preserves_dimensions raster21 [] 0 gw_nil

/-! ## C10: determinism -/

/-- C10: the embedding is deterministic — it is a pure function of the
raster and the text (the strength constant is fixed at build time), so two
invocations with equal arguments return equal results; the model has no
other inputs, mirroring the absence of any randomness source in the
source code. -/
theorem embed_deterministic (i1 i2 : Raster) (t1 t2 : List Char)
    (h1 : i1 = i2) (h2 : t1 = t2) :
    embed_watermark_color i1 t1 = embed_watermark_color i2 t2 := by
  rw [h1, h2]

/-- Witness for `embed_deterministic` at concrete equal arguments. -/
theorem embed_deterministic_witness :
    embed_watermark_color raster21 ("B".toList) =
      embed_watermark_color raster21 ("B".toList) :=
  embed_deterministic raster21 raster21 ("B".toList) ("B".toList) rfl rfl
